import Mathlib

/-!
Verification of the MathJax array column-template parser
(src/ts/input/tex/ColumnParser.ts).

The TypeScript source is shallowly embedded below.  Strings are modelled as
lists of unicode scalar characters (the templates of interest are ASCII, where
JavaScript UTF-16 indexing and scalar indexing agree).  JavaScript arrays that
are written at arbitrary indices (which pads the array with holes) are modelled
as lists of options, a hole being `none`; `undefined` results of reads past the
end of a string are modelled with `Option`.  The `cstart`/`cend` sequences,
which the source may write at index `-1`, are modelled as total maps from `Int`
(JavaScript object-property semantics); they are never read back.
-/

/-- Modelled from the spec: the three vertical classes used by the parser
(`TEXCLASS.VTOP`, `TEXCLASS.VCENTER`, `TEXCLASS.VBOX` from
core/MmlTree/MmlNode.ts, whose source is not included). -/
inductive TEXCLASS where
  | VTOP : TEXCLASS
  | VCENTER : TEXCLASS
  | VBOX : TEXCLASS
deriving DecidableEq, Repr

/-- The error taxonomy of the parser.  The first four mirror the `TexError`
identifiers thrown by ColumnParser.ts.  `JSTypeError` models the JavaScript
`TypeError` that is raised when an `undefined` read past the end of the
template is passed to a string method (`dim.match` in `ParseUtil.matchDimen`,
`align.toLowerCase` in `getAlign`). -/
inductive TexError where
  | BadColumnCharacter : String → TexError
  | MissingColumnDimOrUnits : String → TexError
  | MissingArgForColumn : String → TexError
  | MissingCloseBrace : TexError
  | JSTypeError : TexError
deriving DecidableEq, Repr

/-- Does the error belong to the four named kinds of the spec's taxonomy
(everything except the modelled JavaScript `TypeError`)? -/
def TexError.isNamedKind : TexError → Bool
  | .JSTypeError => false
  | _ => true

/-- Decidable equality for `Except` results, so concrete runs can be checked
by `decide`. -/
instance exceptDecEq {e a : Type} [DecidableEq e] [DecidableEq a] :
    DecidableEq (Except e a)
  | .ok x, .ok y => decidable_of_iff (x = y) (by simp)
  | .ok _, .error _ => isFalse (by simp)
  | .error _, .ok _ => isFalse (by simp)
  | .error x, .error y => decidable_of_iff (x = y) (by simp)

/-- JavaScript sparse-array write `a[n] = v`: pads with holes up to `n` when
`n` is beyond the current length. -/
def jsSet {α : Type} (a : List (Option α)) (n : Nat) (v : α) : List (Option α) :=
  if n < a.length then a.set n (some v)
  else a ++ List.replicate (n - a.length) none ++ [some v]

/-- JavaScript array read `a[n]`: a hole or an out-of-range index reads as
`undefined` (`none`). -/
def jsGet {α : Type} (a : List (Option α)) (n : Nat) : Option α :=
  (a.get? n).bind id

/-- JavaScript `Array.prototype.join`: holes render as empty strings. -/
def jsJoin (a : List (Option String)) (sep : String) : String :=
  String.intercalate sep (a.map (fun o => o.getD ""))

/-- JavaScript truthiness of an optional string (`undefined` and `""` are
falsy). -/
def jsTruthy (o : Option String) : Bool :=
  (o.getD "") ≠ ""

/-- JavaScript `a.map(x => x || d)` on a possibly sparse string array: holes
are skipped by `map` (and remain holes), present empty strings are replaced
by the default. -/
def jsMapDefault (a : List (Option String)) (d : String) : List (Option String) :=
  a.map (Option.map (fun w => if w = "" then d else w))

/-- Modelled from the spec: the caller-owned array metadata record (the
`ArrayItem` of base/BaseItems.ts, whose source is not included), restricted to
the fields the parser writes: the `arraydef` attributes `columnalign`,
`columnwidth`, `columnlines` (absent until set), the `frame` list, the
`dashed` flag and the `ralign` triples. -/
structure ArrayItem where
  columnalign : Option String
  columnwidth : Option String
  columnlines : Option String
  frame : List String
  dashed : Bool
  ralign : List (Option (TEXCLASS × String × String))
deriving DecidableEq, Repr

/-- Modelled from the spec: a freshly constructed metadata record (no
attributes set, empty frame, `dashed = false`, empty `ralign`). -/
def ArrayItem.fresh : ArrayItem :=
  { columnalign := none
    columnwidth := none
    columnlines := none
    frame := []
    dashed := false
    ralign := [] }

/-- The state of the columns analyzed so far (`ColumnState` of the source). -/
structure ColumnState where
  template : List Char
  i : Nat
  c : String
  j : Nat
  calign : List (Option String)
  cwidth : List (Option String)
  clines : List (Option String)
  cstart : Int → Option String
  cend : Int → Option String
  ralign : List (Option (TEXCLASS × String × String))

/-- Number of leading spaces of a character list (the space-skipping loop of
`getBraces`, phrased on the remaining suffix of the template). -/
def countSpaces : List Char → Nat
  | [] => 0
  | a :: rest => if a = ' ' then countSpaces rest + 1 else 0

/-- `while (state.template[state.i] === ' ') state.i++` of `getBraces`. -/
def skipSpaces (t : List Char) (i : Nat) : Nat :=
  i + countSpaces (t.drop i)

/-- The brace-matching loop of `getBraces`, phrased on the suffix of the
template that follows the opening brace, with `b` the current nesting depth
(`braces` in the source).  Returns the number of characters consumed up to
and including the matching closing brace, or `none` when the input ends
first.  A backslash skips the following character without affecting the
depth (`case open-backslash: state.i++`). -/
def braceScan : List Char → Nat → Option Nat
  | [], _ => none
  | ch :: rest, b =>
    if ch = '\\' then
      match rest with
      | [] => none
      | _ :: rest2 => (braceScan rest2 b).map (fun n => n + 2)
    else if ch = '\x7b' then (braceScan rest (b + 1)).map (fun n => n + 1)
    else if ch = '\x7d' then
      if b = 1 then some 1 else (braceScan rest (b - 1)).map (fun n => n + 1)
    else (braceScan rest b).map (fun n => n + 1)

/-- Core of `ColumnParser.getBraces`, acting on the only state components the
source reads (`template`, `i`, `c`) and returning the argument together with
the new cursor.  The argument is `none` when the source's single-token form
reads past the end of the template and returns `undefined`. -/
def getBracesCore (t : List Char) (i : Nat) (c : String) :
    Except TexError (Option String × Nat) :=
  let i1 := skipSpaces t i
  if t.length < i1 then .error (.MissingArgForColumn c)
  else
    match t.get? i1 with
    | none => .ok (none, i1 + 1)
    | some ch =>
      if ch = '\x7b' then
        match braceScan (t.drop (i1 + 1)) 1 with
        | some n => .ok (some (String.mk ((t.drop (i1 + 1)).take (n - 1))), i1 + 1 + n)
        | none => .error .MissingCloseBrace
      else .ok (some (String.singleton ch), i1 + 1)

/-- `ColumnParser.getBraces` at the state level: only the cursor changes. -/
def ColumnParser.getBraces (s : ColumnState) :
    Except TexError (Option String × ColumnState) :=
  match getBracesCore s.template s.i s.c with
  | .ok (r, i2) => .ok (r, { s with i := i2 })
  | .error e => .error e

/-- Modelled from the spec: `ParseUtil.matchDimen` (the dimension-syntax
validator, whose source is not included): accepts an optionally signed
decimal number followed by a recognized TeX unit. -/
def matchDimen (s : String) : Bool :=
  let cs := match s.data with
    | '+' :: r => r
    | '-' :: r => r
    | r => r
  let ds := cs.takeWhile Char.isDigit
  let rest := cs.dropWhile Char.isDigit
  let unit := match rest with
    | '.' :: r => r.dropWhile Char.isDigit
    | r => r
  decide (ds ≠ []) &&
    ["em", "ex", "pt", "pc", "px", "mm", "cm", "in", "mu"].contains (String.mk unit)

/-- Lower-casing of a string (JavaScript `toLowerCase`, for ASCII). -/
def strToLower (s : String) : String :=
  String.map Char.toLower s

/-- Modelled from the spec: the `lookup` helper from util/Options.ts (source
not included): maps `l`/`c`/`r` to the alignment keyword, anything else to
the empty-string default. -/
def lookupAlign (s : String) : String :=
  if s = "l" then "left"
  else if s = "c" then "center"
  else if s = "r" then "right"
  else ""

/-- Core of `ColumnParser.getAlign`: reads a braced argument and maps it
through the alignment lookup.  An `undefined` argument crashes in
`align.toLowerCase()` (modelled as `JSTypeError`). -/
def getAlignCore (t : List Char) (i : Nat) (c : String) :
    Except TexError (String × Nat) :=
  match getBracesCore t i c with
  | .ok (some a, i2) => .ok (lookupAlign (strToLower a), i2)
  | .ok (none, _) => .error .JSTypeError
  | .error e => .error e

/-- Core of `ColumnParser.getDimen`: reads a braced argument and validates it
with the dimension validator.  An `undefined` argument crashes inside
`ParseUtil.matchDimen` (modelled as `JSTypeError`); a present argument that
fails validation raises `MissingColumnDimOrUnits` naming `state.c`. -/
def getDimenCore (t : List Char) (i : Nat) (c : String) :
    Except TexError (String × Nat) :=
  match getBracesCore t i c with
  | .ok (some d, i2) =>
    if matchDimen d then .ok (d, i2)
    else .error (.MissingColumnDimOrUnits c)
  | .ok (none, _) => .error .JSTypeError
  | .error e => .error e

/-- `ColumnParser.getColumn`: reads the alignment (an explicit argument when
`ca = ""`, the `w`/`W` case; otherwise the forced value, `"left"` for
`p`/`m`/`b`), then the dimension, writes `calign[j]`, `cwidth[j]` and
`ralign[j] = (rc, width, align)`, and increments `j`.  On an error the
partially mutated state is discarded by the caller, so the writes are
performed after both reads. -/
def ColumnParser.getColumn (s : ColumnState) (rc : TEXCLASS) (ca : String) :
    Except TexError ColumnState :=
  match (if ca = "" then getAlignCore s.template s.i s.c else .ok (ca, s.i)) with
  | .error e => .error e
  | .ok (a, i1) =>
    match getDimenCore s.template i1 s.c with
    | .error e => .error e
    | .ok (d, i2) =>
      .ok { s with
            i := i2
            calign := jsSet s.calign s.j a
            cwidth := jsSet s.cwidth s.j d
            ralign := jsSet s.ralign s.j (rc, d, a)
            j := s.j + 1 }

/-- The set of characters with an own entry in `columnHandler`. -/
def registered (ch : Char) : Bool :=
  ['l', 'c', 'r', 'p', 'm', 'b', 'w', 'W', '|', ':', '>', '<', '@', '!', ' '].contains ch

/-- The column-producing specifiers (those that advance `j`). -/
def isProducer (ch : Char) : Bool :=
  ['l', 'c', 'r', 'p', 'm', 'b', 'w', 'W'].contains ch

/-- The border/annotation specifiers (those that never advance `j`). -/
def isBorderChar (ch : Char) : Bool :=
  ['|', ':', '>', '<', '@', '!', ' '].contains ch

/-- The `columnHandler` dispatch table of the source, as one function on the
character being dispatched. -/
def handler (ch : Char) (s : ColumnState) : Except TexError ColumnState :=
  if ch = 'l' then .ok { s with calign := jsSet s.calign s.j "left", j := s.j + 1 }
  else if ch = 'c' then .ok { s with calign := jsSet s.calign s.j "center", j := s.j + 1 }
  else if ch = 'r' then .ok { s with calign := jsSet s.calign s.j "right", j := s.j + 1 }
  else if ch = 'p' then ColumnParser.getColumn s .VTOP "left"
  else if ch = 'm' then ColumnParser.getColumn s .VCENTER "left"
  else if ch = 'b' then ColumnParser.getColumn s .VBOX "left"
  else if ch = 'w' then ColumnParser.getColumn s .VTOP ""
  else if ch = 'W' then ColumnParser.getColumn s .VTOP ""
  else if ch = '|' then .ok { s with clines := jsSet s.clines s.j "solid" }
  else if ch = ':' then .ok { s with clines := jsSet s.clines s.j "dashed" }
  else if ch = '>' then
    match getBracesCore s.template s.i s.c with
    | .ok (r, i2) => .ok { s with i := i2, cstart := Function.update s.cstart (s.j : Int) r }
    | .error e => .error e
  else if ch = '<' then
    match getBracesCore s.template s.i s.c with
    | .ok (r, i2) => .ok { s with i := i2, cend := Function.update s.cend ((s.j : Int) - 1) r }
    | .error e => .error e
  else if ch = '@' then
    match getBracesCore s.template s.i s.c with
    | .ok (_, i2) => .ok { s with i := i2 }
    | .error e => .error e
  else if ch = '!' then
    match getBracesCore s.template s.i s.c with
    | .ok (_, i2) => .ok { s with i := i2 }
    | .error e => .error e
  else if ch = ' ' then .ok s
  else .error (.BadColumnCharacter (String.singleton ch))

/-! ### Progress and bounds of the argument reader -/

theorem countSpaces_le (l : List Char) : countSpaces l ≤ l.length := by
  induction l with
  | nil => simp [countSpaces]
  | cons a rest ih =>
    simp only [countSpaces, List.length_cons]
    split
    · omega
    · omega

theorem skipSpaces_ge (t : List Char) (i : Nat) : i ≤ skipSpaces t i :=
  Nat.le_add_right i _

theorem skipSpaces_le (t : List Char) (i : Nat) (h : i ≤ t.length) :
    skipSpaces t i ≤ t.length := by
  have h2 := countSpaces_le (t.drop i)
  simp only [List.length_drop] at h2
  simp only [skipSpaces]
  omega

theorem braceScan_bounds (l : List Char) (b n : Nat)
    (h : braceScan l b = some n) : 1 ≤ n ∧ n ≤ l.length := by
  induction l, b using braceScan.induct generalizing n with
  | case1 b => simp [braceScan] at h
  | case2 b => simp [braceScan] at h
  | case3 b a rest ih =>
    rw [braceScan.eq_def] at h
    simp at h
    obtain ⟨m, hm, rfl⟩ := h
    have := ih m hm
    simp only [List.length_cons]
    omega
  | case4 rest b h1 ih =>
    rw [braceScan.eq_def] at h
    simp at h
    obtain ⟨m, hm, rfl⟩ := h
    have := ih m hm
    simp only [List.length_cons]
    omega
  | case5 rest h1 h2 =>
    rw [braceScan.eq_def] at h
    simp at h
    simp only [List.length_cons]
    omega
  | case6 rest b hb h1 h2 ih =>
    rw [braceScan.eq_def] at h
    simp [hb] at h
    obtain ⟨m, hm, rfl⟩ := h
    have := ih m hm
    simp only [List.length_cons]
    omega
  | case7 ch rest b h1 h2 h3 ih =>
    rw [braceScan.eq_def] at h
    simp [h1, h2, h3] at h
    obtain ⟨m, hm, rfl⟩ := h
    have := ih m hm
    simp only [List.length_cons]
    omega

theorem braceScan_close (l : List Char) (b n : Nat)
    (h : braceScan l b = some n) : l.get? (n - 1) = some '\x7d' := by
  induction l, b using braceScan.induct generalizing n with
  | case1 b => simp [braceScan] at h
  | case2 b => simp [braceScan] at h
  | case3 b a rest ih =>
    rw [braceScan.eq_def] at h
    simp at h
    obtain ⟨m, hm, rfl⟩ := h
    have hb := braceScan_bounds rest b m hm
    have hidx : m + 2 - 1 = (m - 1) + 1 + 1 := by omega
    rw [hidx, List.get?_cons_succ, List.get?_cons_succ]
    exact ih m hm
  | case4 rest b h1 ih =>
    rw [braceScan.eq_def] at h
    simp at h
    obtain ⟨m, hm, rfl⟩ := h
    have hb := braceScan_bounds rest (b + 1) m hm
    have hidx : m + 1 - 1 = (m - 1) + 1 := by omega
    rw [hidx, List.get?_cons_succ]
    exact ih m hm
  | case5 rest h1 h2 =>
    rw [braceScan.eq_def] at h
    simp at h
    subst h
    simp
  | case6 rest b hb h1 h2 ih =>
    rw [braceScan.eq_def] at h
    simp [hb] at h
    obtain ⟨m, hm, rfl⟩ := h
    have hbnd := braceScan_bounds rest (b - 1) m hm
    have hidx : m + 1 - 1 = (m - 1) + 1 := by omega
    rw [hidx, List.get?_cons_succ]
    exact ih m hm
  | case7 ch rest b h1 h2 h3 ih =>
    rw [braceScan.eq_def] at h
    simp [h1, h2, h3] at h
    obtain ⟨m, hm, rfl⟩ := h
    have hbnd := braceScan_bounds rest b m hm
    have hidx : m + 1 - 1 = (m - 1) + 1 := by omega
    rw [hidx, List.get?_cons_succ]
    exact ih m hm

theorem getBracesCore_ok (t : List Char) (i : Nat) (c : String)
    (r : Option String) (i2 : Nat)
    (h : getBracesCore t i c = .ok (r, i2)) :
    i + 1 ≤ i2 ∧ (i ≤ t.length → i2 ≤ t.length + 1) := by
  have hge := skipSpaces_ge t i
  simp only [getBracesCore] at h
  split at h
  · exact absurd h (by simp)
  · rename_i hlen
    split at h
    · simp only [Except.ok.injEq, Prod.mk.injEq] at h
      obtain ⟨rfl, rfl⟩ := h
      exact ⟨by omega, fun _ => by omega⟩
    · rename_i ch hch
      obtain ⟨hlt, -⟩ := List.get?_eq_some.mp hch
      split at h
      · split at h
        · rename_i n hscan
          simp only [Except.ok.injEq, Prod.mk.injEq] at h
          obtain ⟨rfl, rfl⟩ := h
          have hb := braceScan_bounds _ _ _ hscan
          simp only [List.length_drop] at hb
          exact ⟨by omega, fun _ => by omega⟩
        · exact absurd h (by simp)
      · simp only [Except.ok.injEq, Prod.mk.injEq] at h
        obtain ⟨rfl, rfl⟩ := h
        exact ⟨by omega, fun _ => by omega⟩

theorem getBracesCore_ok_some (t : List Char) (i : Nat) (c : String)
    (a : String) (i2 : Nat)
    (h : getBracesCore t i c = .ok (some a, i2)) :
    i + 1 ≤ i2 ∧ (i ≤ t.length → i2 ≤ t.length) := by
  have hge := skipSpaces_ge t i
  simp only [getBracesCore] at h
  split at h
  · exact absurd h (by simp)
  · rename_i hlen
    split at h
    · simp only [Except.ok.injEq, Prod.mk.injEq] at h
      obtain ⟨h1, -⟩ := h
      exact absurd h1 (by simp)
    · rename_i ch hch
      obtain ⟨hlt, -⟩ := List.get?_eq_some.mp hch
      split at h
      · split at h
        · rename_i n hscan
          simp only [Except.ok.injEq, Prod.mk.injEq] at h
          obtain ⟨-, rfl⟩ := h
          have hb := braceScan_bounds _ _ _ hscan
          simp only [List.length_drop] at hb
          exact ⟨by omega, fun _ => by omega⟩
        · exact absurd h (by simp)
      · simp only [Except.ok.injEq, Prod.mk.injEq] at h
        obtain ⟨-, rfl⟩ := h
        exact ⟨by omega, fun _ => by omega⟩

theorem getAlignCore_ok (t : List Char) (i : Nat) (c : String)
    (a : String) (i2 : Nat) (h : getAlignCore t i c = .ok (a, i2)) :
    i + 1 ≤ i2 ∧ (i ≤ t.length → i2 ≤ t.length) := by
  unfold getAlignCore at h
  split at h
  · rename_i r ir heq
    simp only [Except.ok.injEq, Prod.mk.injEq] at h
    obtain ⟨rfl, rfl⟩ := h
    exact getBracesCore_ok_some _ _ _ _ _ heq
  · exact absurd h (by simp)
  · exact absurd h (by simp)

theorem getDimenCore_ok (t : List Char) (i : Nat) (c : String)
    (d : String) (i2 : Nat) (h : getDimenCore t i c = .ok (d, i2)) :
    i + 1 ≤ i2 ∧ (i ≤ t.length → i2 ≤ t.length) := by
  unfold getDimenCore at h
  split at h
  · rename_i r ir heq
    split at h
    · simp only [Except.ok.injEq, Prod.mk.injEq] at h
      obtain ⟨rfl, rfl⟩ := h
      exact getBracesCore_ok_some _ _ _ _ _ heq
    · exact absurd h (by simp)
  · exact absurd h (by simp)
  · exact absurd h (by simp)

theorem getColumn_ok (s : ColumnState) (rc : TEXCLASS) (ca : String)
    (s' : ColumnState) (h : ColumnParser.getColumn s rc ca = .ok s') :
    ∃ a d i2, s.i + 1 ≤ i2 ∧ (s.i ≤ s.template.length → i2 ≤ s.template.length) ∧
      s' = { s with
             i := i2
             calign := jsSet s.calign s.j a
             cwidth := jsSet s.cwidth s.j d
             ralign := jsSet s.ralign s.j (rc, d, a)
             j := s.j + 1 } := by
  unfold ColumnParser.getColumn at h
  split at h
  · exact absurd h (by simp)
  · rename_i a i1 heq1
    split at h
    · exact absurd h (by simp)
    · rename_i d i2 heq2
      simp only [Except.ok.injEq] at h
      subst h
      have hd := getDimenCore_ok _ _ _ _ _ heq2
      have hfacts : s.i ≤ i1 ∧ (s.i ≤ s.template.length → i1 ≤ s.template.length) := by
        split at heq1
        · have ha := getAlignCore_ok _ _ _ _ _ heq1
          exact ⟨by omega, ha.2⟩
        · simp only [Except.ok.injEq, Prod.mk.injEq] at heq1
          obtain ⟨rfl, rfl⟩ := heq1
          exact ⟨Nat.le_refl _, fun h => h⟩
      refine ⟨a, d, i2, by omega, ?_, rfl⟩
      intro hle
      exact hd.2 (hfacts.2 hle)

/-! ### Unfolding lemmas for the dispatch table -/

theorem handler_eq_l (s : ColumnState) :
    handler 'l' s = .ok { s with calign := jsSet s.calign s.j "left", j := s.j + 1 } := rfl

theorem handler_eq_c (s : ColumnState) :
    handler 'c' s = .ok { s with calign := jsSet s.calign s.j "center", j := s.j + 1 } := rfl

theorem handler_eq_r (s : ColumnState) :
    handler 'r' s = .ok { s with calign := jsSet s.calign s.j "right", j := s.j + 1 } := rfl

theorem handler_eq_p (s : ColumnState) :
    handler 'p' s = ColumnParser.getColumn s .VTOP "left" := rfl

theorem handler_eq_m (s : ColumnState) :
    handler 'm' s = ColumnParser.getColumn s .VCENTER "left" := rfl

theorem handler_eq_b (s : ColumnState) :
    handler 'b' s = ColumnParser.getColumn s .VBOX "left" := rfl

theorem handler_eq_w (s : ColumnState) :
    handler 'w' s = ColumnParser.getColumn s .VTOP "" := rfl

theorem handler_eq_W (s : ColumnState) :
    handler 'W' s = ColumnParser.getColumn s .VTOP "" := rfl

theorem handler_eq_bar (s : ColumnState) :
    handler '|' s = .ok { s with clines := jsSet s.clines s.j "solid" } := rfl

theorem handler_eq_colon (s : ColumnState) :
    handler ':' s = .ok { s with clines := jsSet s.clines s.j "dashed" } := rfl

theorem handler_eq_gt (s : ColumnState) :
    handler '>' s =
      match getBracesCore s.template s.i s.c with
      | .ok (r, i2) => .ok { s with i := i2, cstart := Function.update s.cstart (s.j : Int) r }
      | .error e => .error e := rfl

theorem handler_eq_lt (s : ColumnState) :
    handler '<' s =
      match getBracesCore s.template s.i s.c with
      | .ok (r, i2) => .ok { s with i := i2, cend := Function.update s.cend ((s.j : Int) - 1) r }
      | .error e => .error e := rfl

theorem handler_eq_at (s : ColumnState) :
    handler '@' s =
      match getBracesCore s.template s.i s.c with
      | .ok (_, i2) => .ok { s with i := i2 }
      | .error e => .error e := rfl

theorem handler_eq_bang (s : ColumnState) :
    handler '!' s =
      match getBracesCore s.template s.i s.c with
      | .ok (_, i2) => .ok { s with i := i2 }
      | .error e => .error e := rfl

theorem handler_eq_space (s : ColumnState) :
    handler ' ' s = .ok s := rfl

theorem registered_cases (ch : Char) (h : registered ch = true) :
    ch = 'l' ∨ ch = 'c' ∨ ch = 'r' ∨ ch = 'p' ∨ ch = 'm' ∨ ch = 'b' ∨ ch = 'w' ∨
    ch = 'W' ∨ ch = '|' ∨ ch = ':' ∨ ch = '>' ∨ ch = '<' ∨ ch = '@' ∨ ch = '!' ∨ ch = ' ' := by
  simp [registered] at h
  exact h

theorem handler_unreg (ch : Char) (s : ColumnState) (h : registered ch = false) :
    handler ch s = .error (.BadColumnCharacter (String.singleton ch)) := by
  simp [registered] at h
  obtain ⟨h1, h2, h3, h4, h5, h6, h7, h8, h9, h10, h11, h12, h13, h14, h15⟩ := h
  simp [handler, h1, h2, h3, h4, h5, h6, h7, h8, h9, h10, h11, h12, h13, h14, h15]

theorem handler_ok_frame (ch : Char) (s s' : ColumnState)
    (h : handler ch s = .ok s') :
    s'.template = s.template ∧ s.i ≤ s'.i ∧
      (s.i ≤ s.template.length → s'.i ≤ s.template.length + 1) := by
  by_cases hreg : registered ch = true
  · rcases registered_cases ch hreg with rfl | rfl | rfl | rfl | rfl | rfl | rfl | rfl |
      rfl | rfl | rfl | rfl | rfl | rfl | rfl
    all_goals first
    | (rw [handler_eq_l] at h <;> injection h with h2 <;> subst h2 <;>
       exact ⟨rfl, Nat.le_refl _, fun h => Nat.le_succ_of_le h⟩)
    | (rw [handler_eq_c] at h <;> injection h with h2 <;> subst h2 <;>
       exact ⟨rfl, Nat.le_refl _, fun h => Nat.le_succ_of_le h⟩)
    | (rw [handler_eq_r] at h <;> injection h with h2 <;> subst h2 <;>
       exact ⟨rfl, Nat.le_refl _, fun h => Nat.le_succ_of_le h⟩)
    | (rw [handler_eq_bar] at h <;> injection h with h2 <;> subst h2 <;>
       exact ⟨rfl, Nat.le_refl _, fun h => Nat.le_succ_of_le h⟩)
    | (rw [handler_eq_colon] at h <;> injection h with h2 <;> subst h2 <;>
       exact ⟨rfl, Nat.le_refl _, fun h => Nat.le_succ_of_le h⟩)
    | (rw [handler_eq_space] at h <;> injection h with h2 <;> subst h2 <;>
       exact ⟨rfl, Nat.le_refl _, fun h => Nat.le_succ_of_le h⟩)
    | (first
        | rw [handler_eq_p] at h
        | rw [handler_eq_m] at h
        | rw [handler_eq_b] at h
        | rw [handler_eq_w] at h
        | rw [handler_eq_W] at h
       obtain ⟨a, d, i2, h1, h2, rfl⟩ := getColumn_ok _ _ _ _ h
       refine ⟨rfl, ?_, fun hle => ?_⟩
       · show s.i ≤ i2
         omega
       · show i2 ≤ s.template.length + 1
         have := h2 hle
         omega)
    | (rw [handler_eq_gt] at h
       split at h
       · rename_i r i2 hcore
         injection h with h2
         subst h2
         have hc := getBracesCore_ok _ _ _ _ _ hcore
         refine ⟨rfl, ?_, fun hle => ?_⟩
         · show s.i ≤ i2
           omega
         · show i2 ≤ s.template.length + 1
           have := hc.2 hle
           omega
       · exact Except.noConfusion h)
    | (rw [handler_eq_lt] at h
       split at h
       · rename_i r i2 hcore
         injection h with h2
         subst h2
         have hc := getBracesCore_ok _ _ _ _ _ hcore
         refine ⟨rfl, ?_, fun hle => ?_⟩
         · show s.i ≤ i2
           omega
         · show i2 ≤ s.template.length + 1
           have := hc.2 hle
           omega
       · exact Except.noConfusion h)
    | (rw [handler_eq_at] at h
       split at h
       · rename_i r i2 hcore
         injection h with h2
         subst h2
         have hc := getBracesCore_ok _ _ _ _ _ hcore
         refine ⟨rfl, ?_, fun hle => ?_⟩
         · show s.i ≤ i2
           omega
         · show i2 ≤ s.template.length + 1
           have := hc.2 hle
           omega
       · exact Except.noConfusion h)
    | (rw [handler_eq_bang] at h
       split at h
       · rename_i r i2 hcore
         injection h with h2
         subst h2
         have hc := getBracesCore_ok _ _ _ _ _ hcore
         refine ⟨rfl, ?_, fun hle => ?_⟩
         · show s.i ≤ i2
           omega
         · show i2 ≤ s.template.length + 1
           have := hc.2 hle
           omega
       · exact Except.noConfusion h)
  · rw [handler_unreg ch s (by simpa using hreg)] at h
    exact Except.noConfusion h

/-- The scan loop of `ColumnParser.process`: while the cursor is in range,
read the character, store it in `state.c`, advance the cursor past it (one
scalar position), check the dispatch table (`hasOwnProperty`) and invoke the
handler.  Termination mirrors the source: the cursor strictly increases on
every iteration. -/
def processLoop (s : ColumnState) : Except TexError ColumnState :=
  if h : s.i < s.template.length then
    let ch := s.template.get ⟨s.i, h⟩
    if registered ch then
      match hstep : handler ch { s with c := String.singleton ch, i := s.i + 1 } with
      | .ok s2 => processLoop s2
      | .error e => .error e
    else .error (.BadColumnCharacter (String.singleton ch))
  else .ok s
termination_by s.template.length - s.i
decreasing_by
  have h2 := handler_ok_frame _ _ _ hstep
  have h3 : s2.template = s.template := h2.1
  have h4 : s.i + 1 ≤ s2.i := h2.2.1
  have h5 : s2.template.length = s.template.length := by rw [h3]
  omega

/-- The instrumented scan loop: identical to `processLoop` but additionally
counts how many column-producing specifiers (`l`,`c`,`r`,`p`,`m`,`b`,`w`,`W`)
were dispatched. -/
def processLoopCount (s : ColumnState) : Except TexError (ColumnState × Nat) :=
  if h : s.i < s.template.length then
    let ch := s.template.get ⟨s.i, h⟩
    if registered ch then
      match hstep : handler ch { s with c := String.singleton ch, i := s.i + 1 } with
      | .ok s2 =>
        match processLoopCount s2 with
        | .ok (s3, n) => .ok (s3, (if isProducer ch then 1 else 0) + n)
        | .error e => .error e
      | .error e => .error e
    else .error (.BadColumnCharacter (String.singleton ch))
  else .ok (s, 0)
termination_by s.template.length - s.i
decreasing_by
  have h2 := handler_ok_frame _ _ _ hstep
  have h3 : s2.template = s.template := h2.1
  have h4 : s.i + 1 ≤ s2.i := h2.2.1
  have h5 : s2.template.length = s.template.length := by rw [h3]
  omega

/-- The finalization part of `ColumnParser.process` (everything after the
scan loop): sets `columnalign`, optionally `columnwidth`, and the border
outputs `frame`/`dashed`/`columnlines` on the metadata record. -/
def finalize (s : ColumnState) (a : ArrayItem) : ArrayItem :=
  let calign := s.calign
  let a1 : ArrayItem := { a with columnalign := some (jsJoin calign " "), ralign := s.ralign }
  let a2 : ArrayItem :=
    if s.cwidth.length = 0 then a1
    else
      let cw := if s.cwidth.length < calign.length then s.cwidth ++ [some "auto"] else s.cwidth
      { a1 with columnwidth := some (jsJoin (jsMapDefault cw "auto") " ") }
  if s.clines.length = 0 then a2
  else
    let clines := s.clines
    let a3 : ArrayItem :=
      if jsTruthy (jsGet clines 0) then
        { a2 with frame := a2.frame ++ ["left"], dashed := decide (jsGet clines 0 = some "dashed") }
      else a2
    let p : ArrayItem × List (Option String) :=
      if clines.length > calign.length then
        ({ a3 with frame := a3.frame ++ ["right"] }, clines.dropLast)
      else if clines.length < calign.length then (a3, clines ++ [some "none"])
      else (a3, clines)
    { p.1 with columnlines := some (jsJoin (jsMapDefault (p.2.drop 1) "none") " ") }

/-- The freshly initialized `ColumnState` of `ColumnParser.process`
(`ralign` is the caller-owned array, written in place). -/
def mkState (template : String) (array : ArrayItem) : ColumnState :=
  { template := template.data
    i := 0
    c := ""
    j := 0
    calign := []
    cwidth := []
    clines := []
    cstart := fun _ => none
    cend := fun _ => none
    ralign := array.ralign }

/-- `ColumnParser.process`: scan the template, then fold the accumulated
state into the metadata record. -/
def ColumnParser.process (template : String) (array : ArrayItem) :
    Except TexError ArrayItem :=
  match processLoop (mkState template array) with
  | .ok s => .ok (finalize s array)
  | .error e => .error e

/-! ### A structurally recursive evaluator for the scan loop

`processLoop` is defined by well-founded recursion (mirroring the source's
while loop), which the kernel does not unfold during `decide`/`rfl`
evaluation.  `processLoopFuel` is the same computation driven by a fuel
counter; `processLoopFuel_eq` proves that with enough fuel it coincides with
`processLoop`, so concrete runs can be evaluated by the kernel. -/

def processLoopFuel : Nat → ColumnState → Except TexError ColumnState
  | 0, s => .ok s
  | n + 1, s =>
    if h : s.i < s.template.length then
      let ch := s.template.get ⟨s.i, h⟩
      if registered ch then
        match handler ch { s with c := String.singleton ch, i := s.i + 1 } with
        | .ok s2 => processLoopFuel n s2
        | .error e => .error e
      else .error (.BadColumnCharacter (String.singleton ch))
    else .ok s

theorem processLoopFuel_eq (n : Nat) (s : ColumnState)
    (h : s.template.length - s.i < n) : processLoopFuel n s = processLoop s := by
  induction n generalizing s with
  | zero => omega
  | succ n ih =>
    rw [processLoop.eq_def]
    simp only [processLoopFuel]
    by_cases hlt : s.i < s.template.length
    · simp only [dif_pos hlt]
      by_cases hreg : registered (s.template.get ⟨s.i, hlt⟩) = true
      · simp only [if_pos hreg]
        cases hh : handler (s.template.get ⟨s.i, hlt⟩)
            { s with c := String.singleton (s.template.get ⟨s.i, hlt⟩), i := s.i + 1 } with
        | ok s2 =>
          simp only [hh]
          apply ih
          have h2 := handler_ok_frame _ _ _ hh
          have h3 : s2.template = s.template := h2.1
          have h4 : s.i + 1 ≤ s2.i := h2.2.1
          have h5 : s2.template.length = s.template.length := by rw [h3]
          omega
        | error e => simp only [hh]
      · simp only [if_neg hreg]
    · simp only [dif_neg hlt]

/-- Evaluation bridge: a `process` run equals the fuel evaluator run with
fuel `template.length + 1`, which the kernel can compute. -/
theorem process_eval (t : String) (a : ArrayItem) :
    ColumnParser.process t a =
      match processLoopFuel (t.data.length + 1) (mkState t a) with
      | .ok s => .ok (finalize s a)
      | .error e => .error e := by
  unfold ColumnParser.process
  rw [processLoopFuel_eq]
  simp [mkState]

/-! ### Sparse-array lemmas -/

theorem jsSet_at_length {α : Type} (a : List (Option α)) (v : α) :
    jsSet a a.length v = a ++ [some v] := by
  simp [jsSet]

theorem jsGet_jsSet_self {α : Type} (a : List (Option α)) (n : Nat) (v : α) :
    jsGet (jsSet a n v) n = some v := by
  unfold jsSet jsGet
  split
  · rename_i h
    rw [List.get?_set_eq_of_lt _ h]
    rfl
  · rename_i h
    have hlen : (a ++ List.replicate (n - a.length) none).length = n := by
      simp
      omega
    rw [List.get?_append_right (by omega)]
    rw [hlen]
    simp

theorem jsGet_jsSet_ne {α : Type} (a : List (Option α)) (n k : Nat) (v : α)
    (h : k ≠ n) : jsGet (jsSet a n v) k = jsGet a k := by
  unfold jsSet jsGet
  split
  · rw [List.get?_set_ne _ _ (by omega)]
  · rename_i hn
    by_cases hk : k < a.length
    · rw [List.get?_append (by simp; omega)]
      rw [List.get?_append hk]
    · have ha : a.get? k = none := List.get?_eq_none.mpr (by omega)
      rw [ha]
      by_cases hk2 : k < n
      · rw [List.get?_append (by simp; omega)]
        rw [List.get?_append_right (by omega)]
        have : (List.replicate (n - a.length) (none : Option α)).get? (k - a.length) = some none := by
          rw [List.get?_eq_getElem?]
          simp [List.getElem?_replicate]
          omega
        rw [this]
        rfl
      · rw [List.get?_eq_none.mpr (by simp; omega)]

/-- The alignment keyword produced for each of the three plain alignment
specifiers. -/
def lcrAlign (ch : Char) : String :=
  if ch = 'l' then "left"
  else if ch = 'c' then "center"
  else if ch = 'r' then "right"
  else ""

theorem handler_lcr_step (ch : Char) (s1 : ColumnState)
    (hmem : ch = 'l' ∨ ch = 'c' ∨ ch = 'r') :
    handler ch s1 =
      .ok { s1 with calign := jsSet s1.calign s1.j (lcrAlign ch), j := s1.j + 1 } := by
  rcases hmem with rfl | rfl | rfl
  · exact handler_eq_l s1
  · exact handler_eq_c s1
  · exact handler_eq_r s1

theorem processLoop_lcr (n : Nat) : ∀ s : ColumnState,
    s.template.length - s.i = n →
    s.i ≤ s.template.length →
    (∀ ch ∈ s.template.drop s.i, ch = 'l' ∨ ch = 'c' ∨ ch = 'r') →
    s.j = s.calign.length →
    ∃ s', processLoop s = .ok s' ∧ s'.template = s.template ∧
      s'.i = s.template.length ∧ s'.j = s.j + (s.template.length - s.i) ∧
      s'.calign = s.calign ++ (s.template.drop s.i).map (fun ch => some (lcrAlign ch)) ∧
      s'.cwidth = s.cwidth ∧ s'.clines = s.clines ∧ s'.ralign = s.ralign ∧
      s'.cstart = s.cstart ∧ s'.cend = s.cend := by
  induction n with
  | zero =>
    intro s h0 hle hall hj
    have hi : s.i = s.template.length := by omega
    refine ⟨s, ?_, rfl, hi, by omega, ?_, rfl, rfl, rfl, rfl, rfl⟩
    · rw [processLoop.eq_def]
      simp [hi]
    · rw [hi, List.drop_length]
      simp
  | succ n ih =>
    intro s h0 hle hall hj
    have hlt : s.i < s.template.length := by omega
    have hdrop : s.template.drop s.i =
        s.template.get ⟨s.i, hlt⟩ :: s.template.drop (s.i + 1) := by
      rw [List.drop_eq_getElem_cons hlt]
      simp
    have hmem : s.template.get ⟨s.i, hlt⟩ = 'l' ∨ s.template.get ⟨s.i, hlt⟩ = 'c' ∨
        s.template.get ⟨s.i, hlt⟩ = 'r' := by
      apply hall
      rw [hdrop]
      exact List.mem_cons_self _ _
    have hreg : registered (s.template.get ⟨s.i, hlt⟩) = true := by
      rcases hmem with h | h | h <;> rw [h] <;> decide
    have hh := handler_lcr_step (s.template.get ⟨s.i, hlt⟩)
      { s with c := String.singleton (s.template.get ⟨s.i, hlt⟩), i := s.i + 1 } hmem
    rw [processLoop.eq_def]
    simp only [dif_pos hlt, hreg, if_true]
    cases hh2 : handler (s.template.get ⟨s.i, hlt⟩)
        { s with c := String.singleton (s.template.get ⟨s.i, hlt⟩), i := s.i + 1 } with
    | error e =>
      rw [hh] at hh2
      exact Except.noConfusion hh2
    | ok s2 =>
      simp only [hh2]
      rw [hh] at hh2
      injection hh2 with hh3
      subst hh3
      obtain ⟨s', hrun, ht, hi, hjj, hca, hcw, hcl, hra, hcs, hce⟩ :=
        ih { s with c := String.singleton (s.template.get ⟨s.i, hlt⟩), i := s.i + 1,
                    calign := jsSet s.calign s.j (lcrAlign (s.template.get ⟨s.i, hlt⟩)),
                    j := s.j + 1 }
          (by simp; omega) (by simp; omega)
          (by
            intro ch hch
            apply hall
            simp only at hch
            rw [hdrop]
            exact List.mem_cons_of_mem _ hch)
          (by simp [hj, jsSet_at_length])
      refine ⟨s', hrun, ht, hi, ?_, ?_, hcw, hcl, hra, hcs, hce⟩
      · simp only at hjj
        omega
      · rw [hca]
        simp only [hj]
        rw [jsSet_at_length, hdrop]
        simp [List.append_assoc]
        conv_rhs => rw [List.drop_eq_getElem_cons (by simpa using hlt)]
        simp

/-! ### Error classification -/

theorem getBracesCore_err_le (t : List Char) (i : Nat) (c : String) (e : TexError)
    (hle : i ≤ t.length) (h : getBracesCore t i c = .error e) :
    e = .MissingCloseBrace := by
  have hsk := skipSpaces_le t i hle
  simp only [getBracesCore] at h
  split at h
  · omega
  · split at h
    · exact absurd h (by simp)
    · split at h
      · split at h
        · exact absurd h (by simp)
        · injection h with h2
          exact h2.symm
      · exact absurd h (by simp)

theorem getAlignCore_err (t : List Char) (i : Nat) (c : String) (e : TexError)
    (hle : i ≤ t.length) (h : getAlignCore t i c = .error e) :
    e = .MissingCloseBrace ∨ e = .JSTypeError := by
  unfold getAlignCore at h
  split at h
  · exact absurd h (by simp)
  · injection h with h2
    exact Or.inr h2.symm
  · rename_i e2 heq
    injection h with h2
    subst h2
    exact Or.inl (getBracesCore_err_le _ _ _ _ hle heq)

theorem getDimenCore_err (t : List Char) (i : Nat) (c : String) (e : TexError)
    (hle : i ≤ t.length) (h : getDimenCore t i c = .error e) :
    e = .MissingCloseBrace ∨ e = .JSTypeError ∨ e = .MissingColumnDimOrUnits c := by
  unfold getDimenCore at h
  split at h
  · rename_i d i2 heq
    split at h
    · exact absurd h (by simp)
    · injection h with h2
      exact Or.inr (Or.inr h2.symm)
  · injection h with h2
    exact Or.inr (Or.inl h2.symm)
  · rename_i e2 heq
    injection h with h2
    subst h2
    exact Or.inl (getBracesCore_err_le _ _ _ _ hle heq)

theorem getColumn_err (s : ColumnState) (rc : TEXCLASS) (ca : String) (e : TexError)
    (hle : s.i ≤ s.template.length) (h : ColumnParser.getColumn s rc ca = .error e) :
    e = .MissingCloseBrace ∨ e = .JSTypeError ∨ e = .MissingColumnDimOrUnits s.c := by
  unfold ColumnParser.getColumn at h
  split at h
  · rename_i e2 heq
    injection h with h2
    subst h2
    split at heq
    · rcases getAlignCore_err _ _ _ _ hle heq with h3 | h3
      · exact Or.inl h3
      · exact Or.inr (Or.inl h3)
    · exact absurd heq (by simp)
  · rename_i a i1 heq1
    split at h
    · rename_i e2 heq2
      injection h with h2
      subst h2
      have hi1 : i1 ≤ s.template.length := by
        split at heq1
        · exact (getAlignCore_ok _ _ _ _ _ heq1).2 hle
        · simp only [Except.ok.injEq, Prod.mk.injEq] at heq1
          obtain ⟨rfl, rfl⟩ := heq1
          exact hle
      exact getDimenCore_err _ _ _ _ hi1 heq2
    · exact absurd h (by simp)

theorem handler_err (ch : Char) (s : ColumnState) (e : TexError)
    (hreg : registered ch = true) (hle : s.i ≤ s.template.length)
    (h : handler ch s = .error e) :
    e = .MissingCloseBrace ∨ e = .JSTypeError ∨ e = .MissingColumnDimOrUnits s.c := by
  rcases registered_cases ch hreg with rfl | rfl | rfl | rfl | rfl | rfl | rfl | rfl |
    rfl | rfl | rfl | rfl | rfl | rfl | rfl
  all_goals first
  | (rw [handler_eq_l] at h; exact Except.noConfusion h)
  | (rw [handler_eq_c] at h; exact Except.noConfusion h)
  | (rw [handler_eq_r] at h; exact Except.noConfusion h)
  | (rw [handler_eq_bar] at h; exact Except.noConfusion h)
  | (rw [handler_eq_colon] at h; exact Except.noConfusion h)
  | (rw [handler_eq_space] at h; exact Except.noConfusion h)
  | (first
      | rw [handler_eq_p] at h
      | rw [handler_eq_m] at h
      | rw [handler_eq_b] at h
      | rw [handler_eq_w] at h
      | rw [handler_eq_W] at h
     exact getColumn_err _ _ _ _ hle h)
  | (first
      | rw [handler_eq_gt] at h
      | rw [handler_eq_lt] at h
      | rw [handler_eq_at] at h
      | rw [handler_eq_bang] at h
     split at h
     · exact Except.noConfusion h
     · rename_i e2 heq
       injection h with h2
       subst h2
       exact Or.inl (getBracesCore_err_le _ _ _ _ hle heq))

theorem processLoop_err (n : Nat) : ∀ s : ColumnState, ∀ e : TexError,
    s.template.length - s.i ≤ n → s.i ≤ s.template.length →
    processLoop s = .error e →
    (∃ k ch, s.i ≤ k ∧ s.template.get? k = some ch ∧ registered ch = false ∧
        e = .BadColumnCharacter (String.singleton ch)) ∨
    e = .MissingCloseBrace ∨ e = .JSTypeError ∨
    (∃ str, e = .MissingColumnDimOrUnits str) := by
  induction n with
  | zero =>
    intro s e h0 hle h
    have hi : s.i = s.template.length := by omega
    rw [processLoop.eq_def] at h
    simp [hi] at h
  | succ n ih =>
    intro s e h0 hle h
    by_cases hlt : s.i < s.template.length
    case neg =>
      rw [processLoop.eq_def] at h
      simp [hlt] at h
    rw [processLoop.eq_def] at h
    simp only [dif_pos hlt] at h
    by_cases hreg : registered (s.template.get ⟨s.i, hlt⟩) = true
    · simp only [hreg, if_true] at h
      revert h
      cases hh : handler (s.template.get ⟨s.i, hlt⟩)
          { s with c := String.singleton (s.template.get ⟨s.i, hlt⟩), i := s.i + 1 } with
      | ok s2 =>
        intro h0x
        have h : processLoop s2 = Except.error e := h0x
        have hf := handler_ok_frame _ _ _ hh
        have ht2 : s2.template = s.template := hf.1
        have hi2 : s.i + 1 ≤ s2.i := hf.2.1
        by_cases hle2 : s2.i ≤ s2.template.length
        · have := ih s2 e (by rw [ht2]; omega) hle2 h
          rcases this with ⟨k, ch, hik, hget, hreg2, he⟩ | rest
          · left
            rw [ht2] at hget
            exact ⟨k, ch, by omega, hget, hreg2, he⟩
          · exact Or.inr rest
        · rw [processLoop.eq_def] at h
          simp [show ¬ s2.i < s2.template.length by omega] at h
      | error e2 =>
        intro h0x
        have h : Except.error e2 = Except.error e := h0x
        injection h with h2
        subst h2
        have := handler_err _ _ _ hreg (by simp; omega) hh
        rcases this with h3 | h3 | h3
        · exact Or.inr (Or.inl h3)
        · exact Or.inr (Or.inr (Or.inl h3))
        · exact Or.inr (Or.inr (Or.inr ⟨_, h3⟩))
    · simp only [hreg, if_false] at h
      injection h with h2
      subst h2
      left
      exact ⟨s.i, s.template.get ⟨s.i, hlt⟩, Nat.le_refl _, List.get?_eq_get hlt,
        by simpa using hreg, rfl⟩

/-! ## Claim theorems -/

/-- C1 (counterexample): on a freshly constructed metadata record,
`process "|l|c|r|"` sets `columnlines` to `"solid solid"`, not the
`"none none"` the claim states (the two interior `|` borders are solid). -/
theorem C1_counterexample :
    ColumnParser.process "|l|c|r|" ArrayItem.fresh = .ok
      { columnalign := some "left center right"
        columnwidth := none
        columnlines := some "solid solid"
        frame := ["left", "right"]
        dashed := false
        ralign := [] } ∧
    (some "solid solid" : Option String) ≠ some "none none" := by
  constructor
  · rw [process_eval]
    decide
  · decide

/-- C1 (amended): `process "|l|c|r|"` on a fresh metadata record succeeds and
sets `columnalign = "left center right"`, appends `left` then `right` to
`frame`, sets `dashed` to `false`, and sets `columnlines = "solid solid"`
(the two interior borders are solid; the edge borders are consumed into the
frame). -/
theorem C1_table_borders :
    ColumnParser.process "|l|c|r|" ArrayItem.fresh = .ok
      { columnalign := some "left center right"
        columnwidth := none
        columnlines := some "solid solid"
        frame := ["left", "right"]
        dashed := false
        ralign := [] } := by
  rw [process_eval]
  decide

/-- C3 (code bug): `process "p"` does not signal `MissingArgForColumn`: the
end-of-input guard in `getBraces` uses a strict comparison
(`state.i > state.template.length`), so the single-token form reads
`undefined` past the end of the template and the run aborts with the modelled
JavaScript `TypeError` inside the dimension validator — an error outside the
four named kinds of the taxonomy. -/
theorem C3_missing_arg_dead :
    ColumnParser.process "p" ArrayItem.fresh = .error .JSTypeError ∧
    TexError.isNamedKind .JSTypeError = false := by
  constructor
  · rw [process_eval]
    decide
  · decide

/-- C6: for every template consisting only of `l`, `c`, `r` characters,
`process` succeeds and `columnalign` is the space-join of one keyword per
input character, in input order, with `l ↦ left`, `c ↦ center`,
`r ↦ right`. -/
theorem C6_lcr_columnalign (t : String) (a : ArrayItem)
    (hall : ∀ ch ∈ t.data, ch = 'l' ∨ ch = 'c' ∨ ch = 'r') :
    ColumnParser.process t a =
      .ok { a with columnalign := some (String.intercalate " " (t.data.map lcrAlign)) } := by
  obtain ⟨s', hrun, ht, hi, hjj, hca, hcw, hcl, hra, hcs, hce⟩ :=
    processLoop_lcr t.data.length (mkState t a) (by simp [mkState]) (by simp [mkState])
      (by simpa [mkState] using hall) (by simp [mkState])
  unfold ColumnParser.process
  rw [hrun]
  simp only [mkState] at hca hcw hcl hra

  simp only [List.drop_zero, List.nil_append] at hca
  unfold finalize
  simp [hca, hcw, hcl, hra, jsJoin, List.map_map, Function.comp_def]

/-- C6 witness: the general theorem applied to the template `"lcr"`. -/
theorem C6_lcr_columnalign_witness :
    ColumnParser.process "lcr" ArrayItem.fresh =
      .ok { ArrayItem.fresh with columnalign := some "left center right" } := by
  have h := C6_lcr_columnalign "lcr" ArrayItem.fresh (by decide)
  rw [h]
  decide

/-- C7: an input character with no entry in the dispatch table makes the scan
loop abort immediately with `BadColumnCharacter` reporting that character; a
template consisting only of registered specifier characters can never produce
a `BadColumnCharacter` error; in particular `process "x"` signals
`BadColumnCharacter "x"`. -/
theorem C7_bad_column_character :
    (∀ s : ColumnState, ∀ h : s.i < s.template.length,
        registered (s.template.get ⟨s.i, h⟩) = false →
        processLoop s =
          .error (.BadColumnCharacter (String.singleton (s.template.get ⟨s.i, h⟩)))) ∧
    (∀ t : String, ∀ a : ArrayItem, (∀ ch ∈ t.data, registered ch = true) →
        ∀ str, ColumnParser.process t a ≠ .error (.BadColumnCharacter str)) ∧
    ColumnParser.process "x" ArrayItem.fresh = .error (.BadColumnCharacter "x") := by
  refine ⟨?_, ?_, ?_⟩
  · intro s h hreg
    rw [processLoop.eq_def]
    simp only [List.get_eq_getElem] at hreg
    simp [dif_pos h, hreg]
  · intro t a hall str hcontra
    unfold ColumnParser.process at hcontra
    revert hcontra
    cases hrun : processLoop (mkState t a) with
    | ok s => intro hcontra; exact Except.noConfusion hcontra
    | error e =>
      intro hcontra
      have hcast : Except.error (α := ArrayItem) e = .error (.BadColumnCharacter str) :=
        hcontra
      injection hcast with h2
      subst h2
      have := processLoop_err t.data.length (mkState t a) _ (by simp [mkState])
        (by simp [mkState]) hrun
      rcases this with ⟨k, ch, hik, hget, hregF, heq⟩ | h3 | h3 | ⟨str2, h3⟩
      · have hmem : ch ∈ (mkState t a).template := List.get?_mem hget
        simp only [mkState] at hmem
        have := hall ch hmem
        rw [this] at hregF
        exact Bool.noConfusion hregF
      · exact TexError.noConfusion h3
      · exact TexError.noConfusion h3
      · exact TexError.noConfusion h3
  · rw [process_eval]
    decide

/-- C7 witness: the immediate-abort part applied to the one-character
template `"x"`, and the never-raised part applied to `"lcr"`. -/
theorem C7_bad_column_character_witness :
    processLoop (mkState "x" ArrayItem.fresh) =
      .error (.BadColumnCharacter "x") ∧
    ColumnParser.process "lcr" ArrayItem.fresh ≠
      .error (.BadColumnCharacter "q") := by
  constructor
  · exact C7_bad_column_character.1 (mkState "x" ArrayItem.fresh) (by decide) (by decide)
  · exact C7_bad_column_character.2.1 "lcr" ArrayItem.fresh (by decide) "q"

/-- C4: behavior of the brace/single-token argument reader: it skips leading
spaces; a non-brace next character is consumed and returned as the argument;
a braced argument returns exactly the substring strictly between the outer
braces, leaving the cursor just past the matching closing brace (nesting
depth handled, backslash escapes the next character); reaching end of input
inside a brace group signals `MissingCloseBrace`; and the two round-trip
examples of the spec. -/
theorem C4_brace_reader :
    (∀ s : ColumnState, s.template.get? s.i = some ' ' →
        ColumnParser.getBraces s = ColumnParser.getBraces { s with i := s.i + 1 }) ∧
    (∀ s : ColumnState, ∀ ch : Char,
        s.template.get? (skipSpaces s.template s.i) = some ch → ch ≠ '\x7b' →
        ColumnParser.getBraces s =
          .ok (some (String.singleton ch), { s with i := skipSpaces s.template s.i + 1 })) ∧
    (∀ s : ColumnState, ∀ r : Option String, ∀ s' : ColumnState,
        s.template.get? (skipSpaces s.template s.i) = some '\x7b' →
        ColumnParser.getBraces s = .ok (r, s') →
        skipSpaces s.template s.i + 2 ≤ s'.i ∧ s'.i ≤ s.template.length ∧
        s.template.get? (s'.i - 1) = some '\x7d' ∧
        r = some (String.mk
          ((s.template.take (s'.i - 1)).drop (skipSpaces s.template s.i + 1))) ∧
        s' = { s with i := s'.i }) ∧
    (∀ s : ColumnState, ∀ e : TexError,
        s.template.get? (skipSpaces s.template s.i) = some '\x7b' →
        ColumnParser.getBraces s = .error e → e = .MissingCloseBrace) ∧
    ColumnParser.getBraces (mkState "\x7ba\x7bb\x7dc\x7d" ArrayItem.fresh) =
      .ok (some "a\x7bb\x7dc", { mkState "\x7ba\x7bb\x7dc\x7d" ArrayItem.fresh with i := 7 }) ∧
    ColumnParser.getBraces (mkState "\x7ba\\\x7db\x7d" ArrayItem.fresh) =
      .ok (some "a\\\x7db", { mkState "\x7ba\\\x7db\x7d" ArrayItem.fresh with i := 6 }) := by
  refine ⟨?_, ?_, ?_, ?_, ?_, ?_⟩
  · intro s hsp
    have hcore : getBracesCore s.template s.i s.c =
        getBracesCore s.template (s.i + 1) s.c := by
      obtain ⟨hlt, hget⟩ := List.get?_eq_some.mp hsp
      have hskip : skipSpaces s.template s.i = skipSpaces s.template (s.i + 1) := by
        unfold skipSpaces
        have hdrop : s.template.drop s.i = ' ' :: s.template.drop (s.i + 1) := by
          rw [List.drop_eq_getElem_cons hlt]
          simp only [List.get_eq_getElem] at hget
          rw [hget]
        rw [hdrop]
        simp [countSpaces]
        omega
      unfold getBracesCore
      rw [hskip]
    show (match getBracesCore s.template s.i s.c with
          | .ok (r, i2) => Except.ok (r, { s with i := i2 })
          | .error e => Except.error e) =
        (match getBracesCore s.template (s.i + 1) s.c with
          | .ok (r, i2) => Except.ok (r, { s with i := i2 })
          | .error e => Except.error e)
    rw [hcore]
  · intro s ch hget hne
    obtain ⟨hlt, -⟩ := List.get?_eq_some.mp hget
    have hcore : getBracesCore s.template s.i s.c =
        .ok (some (String.singleton ch), skipSpaces s.template s.i + 1) := by
      simp only [getBracesCore, if_neg (show ¬ s.template.length < skipSpaces s.template s.i
        by omega), hget, if_neg hne]
    unfold ColumnParser.getBraces
    rw [hcore]
  · intro s r s' hbr hok
    unfold ColumnParser.getBraces at hok
    cases hres : getBracesCore s.template s.i s.c with
    | error e =>
      rw [hres] at hok
      exact Except.noConfusion hok
    | ok p =>
      obtain ⟨r2, i2⟩ := p
      rw [hres] at hok
      injection hok with h2
      injection h2 with h3 h4
      subst h3
      subst h4
      obtain ⟨hlt, -⟩ := List.get?_eq_some.mp hbr
      simp only [getBracesCore,
        if_neg (show ¬ s.template.length < skipSpaces s.template s.i by omega),
        hbr, if_pos rfl] at hres
      cases hscan : braceScan (s.template.drop (skipSpaces s.template s.i + 1)) 1 with
      | none =>
        rw [hscan] at hres
        exact Except.noConfusion hres
      | some n =>
        rw [hscan] at hres
        have hres2 : (Except.ok
            (some (String.mk ((s.template.drop (skipSpaces s.template s.i + 1)).take (n - 1))),
              skipSpaces s.template s.i + 1 + n) :
            Except TexError (Option String × Nat)) = .ok (r2, i2) := hres
        simp only [Except.ok.injEq, Prod.mk.injEq] at hres2
        obtain ⟨hr2, hi2⟩ := hres2
        have hb := braceScan_bounds _ _ _ hscan
        simp only [List.length_drop] at hb
        have hcl := braceScan_close _ _ _ hscan
        rw [List.get?_drop] at hcl
        subst hi2
        refine ⟨?_, ?_, ?_, ?_, ?_⟩
        · show skipSpaces s.template s.i + 2 ≤ skipSpaces s.template s.i + 1 + n
          omega
        · show skipSpaces s.template s.i + 1 + n ≤ s.template.length
          omega
        · show s.template.get? (skipSpaces s.template s.i + 1 + n - 1) = some '\x7d'
          have hidx : skipSpaces s.template s.i + 1 + n - 1 =
              skipSpaces s.template s.i + 1 + (n - 1) := by omega
          rw [hidx]
          exact hcl
        · show r2 = some (String.mk
            ((s.template.take (skipSpaces s.template s.i + 1 + n - 1)).drop
              (skipSpaces s.template s.i + 1)))
          rw [← hr2]
          congr 1
          congr 1
          have hidx : skipSpaces s.template s.i + 1 + n - 1 =
              n - 1 + (skipSpaces s.template s.i + 1) := by omega
          rw [hidx, List.drop_take]
          congr 1
          omega
        · rfl
  · intro s e hbr herr
    unfold ColumnParser.getBraces at herr
    cases hres : getBracesCore s.template s.i s.c with
    | ok p =>
      rw [hres] at herr
      obtain ⟨r2, i2⟩ := p
      exact Except.noConfusion herr
    | error e2 =>
      rw [hres] at herr
      injection herr with h2
      subst h2
      obtain ⟨hlt, -⟩ := List.get?_eq_some.mp hbr
      simp only [getBracesCore,
        if_neg (show ¬ s.template.length < skipSpaces s.template s.i by omega),
        hbr, if_pos rfl] at hres
      cases hscan : braceScan (s.template.drop (skipSpaces s.template s.i + 1)) 1 with
      | none =>
        rw [hscan] at hres
        have hres2 : (Except.error TexError.MissingCloseBrace :
            Except TexError (Option String × Nat)) = .error e2 := hres
        injection hres2 with h3
        exact h3.symm
      | some n =>
        rw [hscan] at hres
        exact Except.noConfusion hres
  · rfl
  · rfl

/-- C4 witness: the reader applied to concrete inputs: the single-token form
on `"x"`, the brace form on `"\x7bab\x7d"`, and the unterminated group
`"\x7bab"`. -/
theorem C4_brace_reader_witness :
    ColumnParser.getBraces (mkState "x" ArrayItem.fresh) =
      .ok (some "x", { mkState "x" ArrayItem.fresh with i := 1 }) ∧
    (4 ≤ 4 ∧ (some "ab" : Option String) =
      some (String.mk ((("\x7bab\x7d".data).take 3).drop 1))) ∧
    (TexError.MissingCloseBrace = TexError.MissingCloseBrace) := by
  refine ⟨?_, ?_, ?_⟩
  · exact C4_brace_reader.2.1 (mkState "x" ArrayItem.fresh) 'x' (by decide) (by decide)
  · have h := C4_brace_reader.2.2.1 (mkState "\x7bab\x7d" ArrayItem.fresh) (some "ab")
      { mkState "\x7bab\x7d" ArrayItem.fresh with i := 4 } (by decide) (by rfl)
    exact ⟨h.2.1, h.2.2.2.1⟩
  · exact C4_brace_reader.2.2.2.1 (mkState "\x7bab" ArrayItem.fresh)
      TexError.MissingCloseBrace (by decide) (by rfl)

/-- C5: a `p`/`m`/`b` declaration (forced alignment `"left"`) whose dimension
read succeeds writes the alignment into `calign[j]`, the width into
`cwidth[j]`, the triple `(class, width, align)` into `ralign[j]`, and
increments `j`; a declaration whose brace argument fails the dimension
validator signals `MissingColumnDimOrUnits` naming the current specifier;
`process "p\x7b3cm\x7dc"` yields `ralign[0] = (VTOP, "3cm", "left")` and
`columnwidth = "3cm auto"`; `process "p\x7bnope\x7d"` signals
`MissingColumnDimOrUnits`. -/
theorem C5_pmb_columns :
    (∀ s : ColumnState, ∀ rc : TEXCLASS, ∀ d : String, ∀ i2 : Nat,
        getDimenCore s.template s.i s.c = .ok (d, i2) →
        ColumnParser.getColumn s rc "left" = .ok
          { s with
            i := i2
            calign := jsSet s.calign s.j "left"
            cwidth := jsSet s.cwidth s.j d
            ralign := jsSet s.ralign s.j (rc, d, "left")
            j := s.j + 1 }) ∧
    (∀ s : ColumnState, ∀ rc : TEXCLASS, ∀ ca : String, ∀ dim : String, ∀ i2 : Nat,
        ca ≠ "" → getBracesCore s.template s.i s.c = .ok (some dim, i2) →
        matchDimen dim = false →
        ColumnParser.getColumn s rc ca = .error (.MissingColumnDimOrUnits s.c)) ∧
    ColumnParser.process "p\x7b3cm\x7dc" ArrayItem.fresh = .ok
      { columnalign := some "left center"
        columnwidth := some "3cm auto"
        columnlines := none
        frame := []
        dashed := false
        ralign := [some (.VTOP, "3cm", "left")] } ∧
    ColumnParser.process "p\x7bnope\x7d" ArrayItem.fresh =
      .error (.MissingColumnDimOrUnits "p") := by
  refine ⟨?_, ?_, ?_, ?_⟩
  · intro s rc d i2 hdim
    show (match getDimenCore s.template s.i s.c with
          | .error e => Except.error e
          | .ok (d2, i3) => Except.ok
              { s with
                i := i3
                calign := jsSet s.calign s.j "left"
                cwidth := jsSet s.cwidth s.j d2
                ralign := jsSet s.ralign s.j (rc, d2, "left")
                j := s.j + 1 }) = _
    rw [hdim]
  · intro s rc ca dim i2 hca hcore hmd
    have hdim : getDimenCore s.template s.i s.c =
        .error (.MissingColumnDimOrUnits s.c) := by
      unfold getDimenCore
      rw [hcore]
      simp [hmd]
    unfold ColumnParser.getColumn
    rw [if_neg hca]
    show (match getDimenCore s.template s.i s.c with
          | .error e => Except.error e
          | .ok (d2, i3) => Except.ok
              { s with
                i := i3
                calign := jsSet s.calign s.j ca
                cwidth := jsSet s.cwidth s.j d2
                ralign := jsSet s.ralign s.j (rc, d2, ca)
                j := s.j + 1 }) = _
    rw [hdim]
  · rw [process_eval]
    decide
  · rw [process_eval]
    decide

/-- C5 witness: the write-through part applied to the concrete declaration
`p\x7b3cm\x7d`, and the failure part applied to `p\x7bnope\x7d`. -/
theorem C5_pmb_columns_witness :
    ColumnParser.getColumn { mkState "\x7b3cm\x7d" ArrayItem.fresh with c := "p" } .VTOP "left" =
      .ok { { mkState "\x7b3cm\x7d" ArrayItem.fresh with c := "p" } with
            i := 5
            calign := jsSet (mkState "\x7b3cm\x7d" ArrayItem.fresh).calign 0 "left"
            cwidth := jsSet (mkState "\x7b3cm\x7d" ArrayItem.fresh).cwidth 0 "3cm"
            ralign := jsSet (mkState "\x7b3cm\x7d" ArrayItem.fresh).ralign 0 (.VTOP, "3cm", "left")
            j := 1 } ∧
    ColumnParser.getColumn { mkState "\x7bnope\x7d" ArrayItem.fresh with c := "p" } .VTOP "left" =
      .error (.MissingColumnDimOrUnits "p") := by
  constructor
  · exact C5_pmb_columns.1 { mkState "\x7b3cm\x7d" ArrayItem.fresh with c := "p" }
      .VTOP "3cm" 5 (by decide)
  · exact C5_pmb_columns.2.1 { mkState "\x7bnope\x7d" ArrayItem.fresh with c := "p" }
      .VTOP "left" "nope" 6 (by decide) (by decide) (by decide)

/-- C10: a `<` specifier processed at `j = 0` with a readable brace argument
succeeds and stores the argument at `cend` index `-1` (changing nothing but
the cursor and `cend`); finalization never reads `cend`, so the write cannot
affect any output; in particular a template beginning `<\x7bx\x7d` produces
exactly the outputs of the template without it. -/
theorem C10_cend_underflow :
    (∀ s : ColumnState, s.j = 0 → ∀ r : String, ∀ i2 : Nat,
        getBracesCore s.template s.i s.c = .ok (some r, i2) →
        handler '<' s = .ok
          { s with i := i2, cend := Function.update s.cend (-1) (some r) }) ∧
    (∀ s : ColumnState, ∀ a : ArrayItem, ∀ f : Int → Option String,
        finalize { s with cend := f } a = finalize s a) ∧
    ColumnParser.process "<\x7bx\x7dl" ArrayItem.fresh =
      ColumnParser.process "l" ArrayItem.fresh := by
  refine ⟨?_, ?_, ?_⟩
  · intro s hj r i2 hcore
    rw [handler_eq_lt, hcore]
    have : ((s.j : Int) - 1) = -1 := by
      rw [hj]
      decide
    rw [this]
  · intro s a f
    rfl
  · rw [process_eval, process_eval]
    decide

/-- C10 witness: the `<` handler applied at `j = 0` to the concrete argument
`\x7bx\x7d`, and finalization of a concrete state with an overwritten `cend`. -/
theorem C10_cend_underflow_witness :
    handler '<' { mkState "\x7bx\x7d" ArrayItem.fresh with c := "<" } = .ok
      { { mkState "\x7bx\x7d" ArrayItem.fresh with c := "<" } with
        i := 3
        cend := Function.update (mkState "\x7bx\x7d" ArrayItem.fresh).cend (-1) (some "x") } ∧
    finalize { mkState "" ArrayItem.fresh with cend := fun _ => some "junk" } ArrayItem.fresh =
      finalize (mkState "" ArrayItem.fresh) ArrayItem.fresh := by
  constructor
  · exact C10_cend_underflow.1 { mkState "\x7bx\x7d" ArrayItem.fresh with c := "<" }
      (by decide) "x" 3 (by decide)
  · exact C10_cend_underflow.2.1 (mkState "" ArrayItem.fresh) ArrayItem.fresh
      (fun _ => some "junk")

/-- One successful iteration of the scan loop. -/
theorem processLoop_step (s : ColumnState) (h : s.i < s.template.length)
    (hreg : registered (s.template.get ⟨s.i, h⟩) = true) (s2 : ColumnState)
    (hh : handler (s.template.get ⟨s.i, h⟩)
        { s with c := String.singleton (s.template.get ⟨s.i, h⟩), i := s.i + 1 } = .ok s2) :
    processLoop s = processLoop s2 := by
  rw [processLoop.eq_def]
  simp only [dif_pos h, hreg, if_true]
  cases hh2 : handler (s.template.get ⟨s.i, h⟩)
      { s with c := String.singleton (s.template.get ⟨s.i, h⟩), i := s.i + 1 } with
  | ok s3 =>
    rw [hh] at hh2
    injection hh2 with h3
    subst h3
    exact rfl
  | error e =>
    rw [hh] at hh2
    exact Except.noConfusion hh2

/-- C2 (counterexample): for `"p\x7b3cm\x7dcc"` the accumulated `cwidth`
(`["3cm"]`) is two entries shorter than `calign` (three columns), yet the
finalized `columnwidth` is `"3cm auto"` — only one `'auto'` is appended, so
the result does not have `calign.length` tokens (that would be
`"3cm auto auto"`). -/
theorem C2_counterexample :
    ColumnParser.process "p\x7b3cm\x7dcc" ArrayItem.fresh = .ok
      { columnalign := some "left center center"
        columnwidth := some "3cm auto"
        columnlines := none
        frame := []
        dashed := false
        ralign := [some (.VTOP, "3cm", "left")] } ∧
    (some "3cm auto" : Option String) ≠ some "3cm auto auto" := by
  constructor
  · rw [process_eval]
    decide
  · decide

/-- C2 (amended): at finalization a non-empty `cwidth` shorter than `calign`
is padded with exactly one `'auto'` entry, regardless of the deficit: for
every template `p\x7b3cm\x7dc^n` with `n ≥ 1` the finalized `columnwidth` is
`"3cm auto"` (two tokens), even though `columnalign` has `n + 1` entries. -/
theorem C2_single_auto_pad (n : Nat) (h : 1 ≤ n) :
    ColumnParser.process ("p\x7b3cm\x7d" ++ String.mk (List.replicate n 'c')) ArrayItem.fresh =
      .ok { columnalign := some (String.intercalate " " ("left" :: List.replicate n "center"))
            columnwidth := some "3cm auto"
            columnlines := none
            frame := []
            dashed := false
            ralign := [some (.VTOP, "3cm", "left")] } := by
  set R := List.replicate n 'c' with hR
  set t : List Char := 'p' :: '\x7b' :: '3' :: 'c' :: 'm' :: '\x7d' :: R with ht
  have hlen : t.length = 6 + n := by
    simp [ht, hR]
    omega
  set s0 : ColumnState :=
    { template := t
      i := 0
      c := ""
      j := 0
      calign := []
      cwidth := []
      clines := []
      cstart := fun _ => none
      cend := fun _ => none
      ralign := [] } with hs0def
  set s2 : ColumnState :=
    { template := t
      i := 6
      c := "p"
      j := 1
      calign := [some "left"]
      cwidth := [some "3cm"]
      clines := []
      cstart := fun _ => none
      cend := fun _ => none
      ralign := [some (.VTOP, "3cm", "left")] } with hs2def
  have hs0 : mkState ("p\x7b3cm\x7d" ++ String.mk R) ArrayItem.fresh = s0 := rfl
  have h1 : braceScan ('\x7d' :: R) 1 = some 1 := by
    rw [braceScan.eq_def]
    simp
  have h2 : braceScan ('m' :: '\x7d' :: R) 1 = some 2 := by
    rw [braceScan.eq_def]
    simp [h1]
  have h3 : braceScan ('c' :: 'm' :: '\x7d' :: R) 1 = some 3 := by
    rw [braceScan.eq_def]
    simp [h2]
  have h4 : braceScan ('3' :: 'c' :: 'm' :: '\x7d' :: R) 1 = some 4 := by
    rw [braceScan.eq_def]
    simp [h3]
  have hbr : getBracesCore t 1 "p" = .ok (some "3cm", 6) := by
    have hsk : skipSpaces t 1 = 1 := by
      simp [skipSpaces, ht, countSpaces]
    unfold getBracesCore
    rw [hsk]
    rw [if_neg (by omega)]
    have hget : t.get? 1 = some '\x7b' := by simp [ht]
    rw [hget]
    show (match braceScan (t.drop 2) 1 with
          | some m => Except.ok (some (String.mk ((t.drop 2).take (m - 1))), 1 + 1 + m)
          | none => Except.error TexError.MissingCloseBrace) = _
    have hdrop : t.drop 2 = '3' :: 'c' :: 'm' :: '\x7d' :: R := by simp [ht]
    rw [hdrop, h4]
    rfl
  have hdim : getDimenCore t 1 "p" = .ok ("3cm", 6) := by
    unfold getDimenCore
    rw [hbr]
    show (if matchDimen "3cm" then (Except.ok ("3cm", 6) : Except TexError (String × Nat))
          else .error (.MissingColumnDimOrUnits "p")) = .ok ("3cm", 6)
    rw [if_pos (by decide)]
  have hcol : ColumnParser.getColumn
      { template := t
        i := 1
        c := "p"
        j := 0
        calign := []
        cwidth := []
        clines := []
        cstart := fun _ => none
        cend := fun _ => none
        ralign := [] } .VTOP "left" = .ok s2 := by
    unfold ColumnParser.getColumn
    rw [if_neg (by decide)]
    show (match getDimenCore t 1 "p" with
          | .error e => Except.error e
          | .ok (d2, i3) => Except.ok
              ({ template := t
                 i := i3
                 c := "p"
                 j := 1
                 calign := jsSet [] 0 "left"
                 cwidth := jsSet [] 0 d2
                 clines := []
                 cstart := fun _ => none
                 cend := fun _ => none
                 ralign := jsSet [] 0 (TEXCLASS.VTOP, d2, "left") } : ColumnState)) = _
    rw [hdim]
    rfl
  have hlt0 : (0 : Nat) < t.length := by omega
  have hstep : processLoop s0 = processLoop s2 := by
    apply processLoop_step _ hlt0 (by exact rfl)
    exact hcol
  obtain ⟨s3, hrun, ht3, hi3, hj3, hca, hcw, hcl, hra, hcs, hce⟩ :=
    processLoop_lcr n s2
      (by
        show t.length - 6 = n
        omega)
      (by
        show 6 ≤ t.length
        omega)
      (by
        intro ch hch
        simp only at hch
        rw [show t.drop 6 = R by simp [ht], hR] at hch
        have := List.eq_of_mem_replicate hch
        simp [this])
      (by
        show (1 : Nat) = [some "left"].length
        rfl)
  have hca2 : s3.calign = some "left" :: List.replicate n (some "center") := by
    refine hca.trans ?_
    show [some "left"] ++ (t.drop 6).map (fun ch => some (lcrAlign ch)) = _
    rw [show t.drop 6 = R by simp [ht], hR]
    simp only [List.map_replicate, List.singleton_append]
    rfl
  have hcw2 : s3.cwidth = [some "3cm"] := hcw
  have hcl2 : s3.clines = [] := hcl
  have hra2 : s3.ralign = [some (.VTOP, "3cm", "left")] := hra
  unfold ColumnParser.process
  rw [hs0, hstep, hrun]
  simp only [finalize]
  rw [hca2, hcw2, hcl2, hra2]
  have hc1 : ([some "3cm"] : List (Option String)).length <
      (some "left" :: List.replicate n (some "center")).length := by
    simp
    omega
  have hjn : ∀ m : Nat, jsJoin (some "left" :: List.replicate m (some "center")) " " =
      String.intercalate " " ("left" :: List.replicate m "center") := by
    intro m
    simp only [jsJoin, List.map_cons, List.map_replicate]
    rfl
  simp [hc1, hjn, ArrayItem.fresh]
  rw [if_pos (show (0 : Nat) < n by omega)]
  decide

/-- C2 witness: the amended theorem applied at `n = 2` (the template
`"p\x7b3cm\x7dcc"` of the counterexample). -/
theorem C2_single_auto_pad_witness :
    ColumnParser.process ("p\x7b3cm\x7d" ++ String.mk (List.replicate 2 'c')) ArrayItem.fresh =
      .ok { columnalign := some (String.intercalate " " ("left" :: List.replicate 2 "center"))
            columnwidth := some "3cm auto"
            columnlines := none
            frame := []
            dashed := false
            ralign := [some (.VTOP, "3cm", "left")] } :=
  C2_single_auto_pad 2 (by decide)

/-! ### Column-index bookkeeping -/

theorem handler_border_facts (ch : Char) (s s' : ColumnState)
    (hb : isBorderChar ch = true) (h : handler ch s = .ok s') :
    s'.j = s.j ∧ s'.calign = s.calign ∧ s'.cwidth = s.cwidth ∧ s'.ralign = s.ralign := by
  have hb2 : ch = '|' ∨ ch = ':' ∨ ch = '>' ∨ ch = '<' ∨ ch = '@' ∨ ch = '!' ∨ ch = ' ' := by
    simp [isBorderChar] at hb
    exact hb
  rcases hb2 with rfl | rfl | rfl | rfl | rfl | rfl | rfl
  all_goals first
  | (rw [handler_eq_bar] at h <;> injection h with h2 <;> subst h2 <;>
     exact ⟨rfl, rfl, rfl, rfl⟩)
  | (rw [handler_eq_colon] at h <;> injection h with h2 <;> subst h2 <;>
     exact ⟨rfl, rfl, rfl, rfl⟩)
  | (rw [handler_eq_space] at h <;> injection h with h2 <;> subst h2 <;>
     exact ⟨rfl, rfl, rfl, rfl⟩)
  | (first
      | rw [handler_eq_gt] at h
      | rw [handler_eq_lt] at h
      | rw [handler_eq_at] at h
      | rw [handler_eq_bang] at h
     split at h
     · injection h with h2
       subst h2
       exact ⟨rfl, rfl, rfl, rfl⟩
     · exact Except.noConfusion h)

theorem handler_producer_facts (ch : Char) (s s' : ColumnState)
    (hp : isProducer ch = true) (h : handler ch s = .ok s') :
    s'.j = s.j + 1 ∧ ∀ k : Nat, k ≠ s.j →
      jsGet s'.calign k = jsGet s.calign k ∧ jsGet s'.cwidth k = jsGet s.cwidth k ∧
      jsGet s'.ralign k = jsGet s.ralign k := by
  have hp2 : ch = 'l' ∨ ch = 'c' ∨ ch = 'r' ∨ ch = 'p' ∨ ch = 'm' ∨ ch = 'b' ∨
      ch = 'w' ∨ ch = 'W' := by
    simp [isProducer] at hp
    exact hp
  rcases hp2 with rfl | rfl | rfl | rfl | rfl | rfl | rfl | rfl
  all_goals first
  | (first
      | rw [handler_eq_l] at h
      | rw [handler_eq_c] at h
      | rw [handler_eq_r] at h
     injection h with h2
     subst h2
     refine ⟨rfl, fun k hk => ⟨?_, rfl, rfl⟩⟩
     exact jsGet_jsSet_ne _ _ _ _ hk)
  | (first
      | rw [handler_eq_p] at h
      | rw [handler_eq_m] at h
      | rw [handler_eq_b] at h
      | rw [handler_eq_w] at h
      | rw [handler_eq_W] at h
     obtain ⟨a, d, i2, h1, h2, rfl⟩ := getColumn_ok _ _ _ _ h
     refine ⟨rfl, fun k hk => ⟨?_, ?_, ?_⟩⟩
     · exact jsGet_jsSet_ne _ _ _ _ hk
     · exact jsGet_jsSet_ne _ _ _ _ hk
     · exact jsGet_jsSet_ne _ _ _ _ hk)

theorem registered_split (ch : Char) (h : registered ch = true) :
    isProducer ch = true ∨ isBorderChar ch = true := by
  rcases registered_cases ch h with rfl | rfl | rfl | rfl | rfl | rfl | rfl | rfl |
    rfl | rfl | rfl | rfl | rfl | rfl | rfl <;> simp [isProducer, isBorderChar]

theorem producer_not_border (ch : Char) (h : isProducer ch = true) :
    isBorderChar ch = false := by
  simp [isProducer] at h
  rcases h with rfl | rfl | rfl | rfl | rfl | rfl | rfl | rfl <;> decide

theorem border_not_producer (ch : Char) (h : isBorderChar ch = true) :
    isProducer ch = false := by
  simp [isBorderChar] at h
  rcases h with rfl | rfl | rfl | rfl | rfl | rfl | rfl <;> decide

theorem processLoopCount_facts (n : Nat) : ∀ s : ColumnState, ∀ r : ColumnState × Nat,
    s.template.length - s.i ≤ n → processLoopCount s = .ok r →
    r.1.j = s.j + r.2 ∧ ∀ k : Nat, k < s.j →
      jsGet r.1.calign k = jsGet s.calign k ∧ jsGet r.1.cwidth k = jsGet s.cwidth k ∧
      jsGet r.1.ralign k = jsGet s.ralign k := by
  induction n with
  | zero =>
    intro s r h0 h
    have hge : ¬ s.i < s.template.length := by omega
    rw [processLoopCount.eq_def] at h
    simp only [dif_neg hge] at h
    injection h with h2
    subst h2
    exact ⟨rfl, fun k hk => ⟨rfl, rfl, rfl⟩⟩
  | succ n ih =>
    intro s r h0 h
    by_cases hlt : s.i < s.template.length
    case neg =>
      rw [processLoopCount.eq_def] at h
      simp only [dif_neg hlt] at h
      injection h with h2
      subst h2
      exact ⟨rfl, fun k hk => ⟨rfl, rfl, rfl⟩⟩
    rw [processLoopCount.eq_def] at h
    simp only [dif_pos hlt] at h
    by_cases hreg : registered (s.template.get ⟨s.i, hlt⟩) = true
    case neg =>
      simp only [Bool.not_eq_true] at hreg
      rw [hreg] at h
      simp only [Bool.false_eq_true, if_false] at h
      exact Except.noConfusion h
    simp only [hreg, if_true] at h
    revert h
    cases hh : handler (s.template.get ⟨s.i, hlt⟩)
        { s with c := String.singleton (s.template.get ⟨s.i, hlt⟩), i := s.i + 1 } with
    | error e =>
      intro h
      exact Except.noConfusion h
    | ok s2 =>
      intro h
      have h' : (match processLoopCount s2 with
          | .ok (s3, m) => Except.ok
              (s3, (if isProducer (s.template.get ⟨s.i, hlt⟩) then 1 else 0) + m)
          | .error e => Except.error e) = .ok r := h
      clear h
      revert h'
      cases hcnt : processLoopCount s2 with
      | error e =>
        intro h
        exact Except.noConfusion h
      | ok p =>
        intro h
        obtain ⟨s3, m⟩ := p
        have h2 : (Except.ok (s3, (if isProducer (s.template.get ⟨s.i, hlt⟩) then 1 else 0) + m) :
            Except TexError (ColumnState × Nat)) = .ok r := h
        injection h2 with h3
        subst h3
        have hf := handler_ok_frame _ _ _ hh
        have ht2 : s2.template = s.template := hf.1
        have hi2 : s.i + 1 ≤ s2.i := hf.2.1
        have ihr := ih s2 (s3, m) (by rw [ht2]; omega) hcnt
        rcases registered_split _ hreg with hp | hb
        · have hpf := handler_producer_facts _ _ _ hp hh
          have hj2 : s2.j = s.j + 1 := hpf.1
          refine ⟨?_, ?_⟩
          · rw [if_pos hp]
            have hj3 : s3.j = s2.j + m := ihr.1
            show s3.j = s.j + (1 + m)
            omega
          · intro k hk
            have hk2 : k ≠ s.j := by omega
            have hpres := hpf.2 k hk2
            have hpres2 := ihr.2 k (by omega)
            have e1 : jsGet s2.calign k = jsGet s.calign k := hpres.1
            have e2 : jsGet s2.cwidth k = jsGet s.cwidth k := hpres.2.1
            have e3 : jsGet s2.ralign k = jsGet s.ralign k := hpres.2.2
            exact ⟨hpres2.1.trans e1, hpres2.2.1.trans e2, hpres2.2.2.trans e3⟩
        · have hbf := handler_border_facts _ _ _ hb hh
          have hj2 : s2.j = s.j := hbf.1
          have hc2 : s2.calign = s.calign := hbf.2.1
          have hw2 : s2.cwidth = s.cwidth := hbf.2.2.1
          have hr2 : s2.ralign = s.ralign := hbf.2.2.2
          refine ⟨?_, ?_⟩
          · have hnp := border_not_producer _ hb
            rw [hnp]
            simp only [Bool.false_eq_true, if_false]
            have hj3 : s3.j = s2.j + m := ihr.1
            show s3.j = s.j + (0 + m)
            omega
          · intro k hk
            have hpres2 := ihr.2 k (by omega)
            rw [hc2, hw2, hr2] at hpres2
            exact hpres2

theorem processLoop_eq_count (n : Nat) : ∀ s : ColumnState,
    s.template.length - s.i ≤ n →
    processLoop s = Except.map Prod.fst (processLoopCount s) := by
  induction n with
  | zero =>
    intro s h0
    have hge : ¬ s.i < s.template.length := by omega
    rw [processLoop.eq_def, processLoopCount.eq_def]
    simp [dif_neg hge, Except.map]
  | succ n ih =>
    intro s h0
    by_cases hlt : s.i < s.template.length
    case neg =>
      rw [processLoop.eq_def, processLoopCount.eq_def]
      simp [dif_neg hlt, Except.map]
    rw [processLoop.eq_def, processLoopCount.eq_def]
    simp only [dif_pos hlt]
    by_cases hreg : registered (s.template.get ⟨s.i, hlt⟩) = true
    case neg =>
      simp only [Bool.not_eq_true] at hreg
      rw [hreg]
      simp [Except.map]
    simp only [hreg, if_true]
    cases hh : handler (s.template.get ⟨s.i, hlt⟩)
        { s with c := String.singleton (s.template.get ⟨s.i, hlt⟩), i := s.i + 1 } with
    | error e =>
      simp only [hh]
      rfl
    | ok s2 =>
      simp only [hh]
      have hf := handler_ok_frame _ _ _ hh
      have ht2 : s2.template = s.template := hf.1
      have hi2 : s.i + 1 ≤ s2.i := hf.2.1
      rw [ih s2 (by rw [ht2]; omega)]
      cases hcnt : processLoopCount s2 with
      | ok p =>
        obtain ⟨s3, m⟩ := p
        rfl
      | error e =>
        rfl

theorem processLoop_i_mono (n : Nat) : ∀ s s' : ColumnState,
    s.template.length - s.i ≤ n → processLoop s = .ok s' →
    s.i ≤ s'.i ∧ (s.i < s.template.length → s.i + 1 ≤ s'.i) := by
  induction n with
  | zero =>
    intro s s' h0 h
    have hge : ¬ s.i < s.template.length := by omega
    rw [processLoop.eq_def] at h
    simp only [dif_neg hge] at h
    injection h with h2
    subst h2
    exact ⟨Nat.le_refl _, fun hc => absurd hc hge⟩
  | succ n ih =>
    intro s s' h0 h
    by_cases hlt : s.i < s.template.length
    case neg =>
      rw [processLoop.eq_def] at h
      simp only [dif_neg hlt] at h
      injection h with h2
      subst h2
      exact ⟨Nat.le_refl _, fun hc => absurd hc hlt⟩
    rw [processLoop.eq_def] at h
    simp only [dif_pos hlt] at h
    by_cases hreg : registered (s.template.get ⟨s.i, hlt⟩) = true
    case neg =>
      simp only [Bool.not_eq_true] at hreg
      rw [hreg] at h
      simp only [Bool.false_eq_true, if_false] at h
      exact Except.noConfusion h
    simp only [hreg, if_true] at h
    revert h
    cases hh : handler (s.template.get ⟨s.i, hlt⟩)
        { s with c := String.singleton (s.template.get ⟨s.i, hlt⟩), i := s.i + 1 } with
    | error e =>
      intro h
      exact Except.noConfusion h
    | ok s2 =>
      intro h0x
      have h : processLoop s2 = Except.ok s' := h0x
      have hf := handler_ok_frame _ _ _ hh
      have ht2 : s2.template = s.template := hf.1
      have hi2 : s.i + 1 ≤ s2.i := hf.2.1
      have ihr := ih s2 s' (by rw [ht2]; omega) h
      exact ⟨by omega, fun _ => by omega⟩

/-- Fuel evaluator for the instrumented loop (kernel-computable). -/
def processLoopCountFuel : Nat → ColumnState → Except TexError (ColumnState × Nat)
  | 0, s => .ok (s, 0)
  | n + 1, s =>
    if h : s.i < s.template.length then
      let ch := s.template.get ⟨s.i, h⟩
      if registered ch then
        match handler ch { s with c := String.singleton ch, i := s.i + 1 } with
        | .ok s2 =>
          match processLoopCountFuel n s2 with
          | .ok (s3, m) => .ok (s3, (if isProducer ch then 1 else 0) + m)
          | .error e => .error e
        | .error e => .error e
      else .error (.BadColumnCharacter (String.singleton ch))
    else .ok (s, 0)

theorem processLoopCountFuel_eq (n : Nat) (s : ColumnState)
    (h : s.template.length - s.i < n) :
    processLoopCountFuel n s = processLoopCount s := by
  induction n generalizing s with
  | zero => omega
  | succ n ih =>
    rw [processLoopCount.eq_def]
    simp only [processLoopCountFuel]
    by_cases hlt : s.i < s.template.length
    · simp only [dif_pos hlt]
      by_cases hreg : registered (s.template.get ⟨s.i, hlt⟩) = true
      · simp only [if_pos hreg]
        cases hh : handler (s.template.get ⟨s.i, hlt⟩)
            { s with c := String.singleton (s.template.get ⟨s.i, hlt⟩), i := s.i + 1 } with
        | ok s2 =>
          simp only [hh]
          have h2 := handler_ok_frame _ _ _ hh
          have h3 : s2.template = s.template := h2.1
          have h4 : s.i + 1 ≤ s2.i := h2.2.1
          have h5 : s2.template.length = s.template.length := by rw [h3]
          rw [ih s2 (by omega)]
        | error e => simp only [hh]
      · simp only [if_neg hreg]
    · simp only [dif_neg hlt]

/-- C8: border/annotation specifiers never change `j` and never touch
`calign`/`cwidth`/`ralign`; every column-producing specifier increments `j`
by exactly one and confines its `calign`/`cwidth`/`ralign` writes to the
current index `j` (so an index once passed is never written again); over a
whole scan, the final `j` is the initial `j` plus the number of
column-producing specifiers dispatched, and all entries below the initial
`j` are preserved; the instrumented loop is the scan loop plus the count. -/
theorem C8_output_column_indexing :
    (∀ ch : Char, ∀ s s' : ColumnState, isBorderChar ch = true → handler ch s = .ok s' →
        s'.j = s.j ∧ s'.calign = s.calign ∧ s'.cwidth = s.cwidth ∧ s'.ralign = s.ralign) ∧
    (∀ ch : Char, ∀ s s' : ColumnState, isProducer ch = true → handler ch s = .ok s' →
        s'.j = s.j + 1 ∧ ∀ k : Nat, k ≠ s.j →
          jsGet s'.calign k = jsGet s.calign k ∧ jsGet s'.cwidth k = jsGet s.cwidth k ∧
          jsGet s'.ralign k = jsGet s.ralign k) ∧
    (∀ s : ColumnState, ∀ r : ColumnState × Nat, processLoopCount s = .ok r →
        r.1.j = s.j + r.2 ∧ ∀ k : Nat, k < s.j →
          jsGet r.1.calign k = jsGet s.calign k ∧ jsGet r.1.cwidth k = jsGet s.cwidth k ∧
          jsGet r.1.ralign k = jsGet s.ralign k) ∧
    (∀ s : ColumnState, processLoop s = Except.map Prod.fst (processLoopCount s)) := by
  refine ⟨handler_border_facts, handler_producer_facts, ?_, ?_⟩
  · intro s r h
    exact processLoopCount_facts (s.template.length - s.i) s r (Nat.le_refl _) h
  · intro s
    exact processLoop_eq_count (s.template.length - s.i) s (Nat.le_refl _)

/-- C8 witness: the whole-scan part applied to the template `"l|c"`, whose
two producers (`l`, `c`) give a dispatch count of 2 while the border `|`
contributes nothing. -/
theorem C8_output_column_indexing_witness :
    processLoopCount (mkState "l|c" ArrayItem.fresh) = .ok
      ({ template := ['l', '|', 'c']
         i := 3
         c := "c"
         j := 2
         calign := [some "left", some "center"]
         cwidth := []
         clines := [none, some "solid"]
         cstart := fun _ => none
         cend := fun _ => none
         ralign := [] }, 2) ∧
    ({ template := ['l', '|', 'c']
       i := 3
       c := "c"
       j := 2
       calign := [some "left", some "center"]
       cwidth := []
       clines := [none, some "solid"]
       cstart := fun _ => none
       cend := fun _ => none
       ralign := [] } : ColumnState).j = (mkState "l|c" ArrayItem.fresh).j + 2 := by
  have hrun : processLoopCount (mkState "l|c" ArrayItem.fresh) = .ok
      ({ template := ['l', '|', 'c']
         i := 3
         c := "c"
         j := 2
         calign := [some "left", some "center"]
         cwidth := []
         clines := [none, some "solid"]
         cstart := fun _ => none
         cend := fun _ => none
         ralign := [] }, 2) := by
    rw [← processLoopCountFuel_eq 4 (mkState "l|c" ArrayItem.fresh) (by decide)]
    rfl
  exact ⟨hrun, (C8_output_column_indexing.2.2.1 (mkState "l|c" ArrayItem.fresh) _ hrun).1⟩

/-- C9 (counterexample): `process "p"` terminates, but neither by returning
normally nor with one of the four named errors: it aborts with the modelled
JavaScript `TypeError` (the end-of-input guard for `MissingArgForColumn` is
unreachable, see C3). -/
theorem C9_counterexample :
    ColumnParser.process "p" ArrayItem.fresh = .error TexError.JSTypeError ∧
    TexError.JSTypeError.isNamedKind = false := by
  constructor
  · rw [process_eval]
    decide
  · decide

/-- C9 (amended): every `process` run terminates, returning normally or
signaling an error (one of the four named kinds, or the modelled JavaScript
`TypeError` on a read past end of input); the brace-matching loop consumes at
least one and at most template-length characters; the argument reader always
advances the cursor; no handler ever moves the cursor backwards; the scan
loop never decreases the cursor and advances it by at least one on every
iteration. -/
theorem C9_cursor_progress :
    (∀ l : List Char, ∀ b n : Nat, braceScan l b = some n → 1 ≤ n ∧ n ≤ l.length) ∧
    (∀ t : List Char, ∀ i : Nat, ∀ c : String, ∀ r : Option String, ∀ i2 : Nat,
        getBracesCore t i c = .ok (r, i2) → i + 1 ≤ i2) ∧
    (∀ ch : Char, ∀ s s' : ColumnState, handler ch s = .ok s' →
        s.i ≤ s'.i ∧ s'.template = s.template) ∧
    (∀ s s' : ColumnState, processLoop s = .ok s' →
        s.i ≤ s'.i ∧ (s.i < s.template.length → s.i + 1 ≤ s'.i)) := by
  refine ⟨braceScan_bounds, ?_, ?_, ?_⟩
  · intro t i c r i2 h
    exact (getBracesCore_ok t i c r i2 h).1
  · intro ch s s' h
    have hf := handler_ok_frame ch s s' h
    exact ⟨hf.2.1, hf.1⟩
  · intro s s' h
    exact processLoop_i_mono (s.template.length - s.i) s s' (Nat.le_refl _) h

/-- C9 witness: the progress facts applied to concrete runs: the brace scan
of `"ab\x7d"`, the reader on `"x"`, the space handler, and the scan loop on
the one-character template `"l"`. -/
theorem C9_cursor_progress_witness :
    (1 ≤ 3 ∧ 3 ≤ ['a', 'b', '\x7d'].length) ∧
    (0 + 1 ≤ 1) ∧
    (mkState "l" ArrayItem.fresh).i + 1 ≤
      ({ template := ['l']
         i := 1
         c := "l"
         j := 1
         calign := [some "left"]
         cwidth := []
         clines := []
         cstart := fun _ => none
         cend := fun _ => none
         ralign := [] } : ColumnState).i := by
  refine ⟨?_, ?_, ?_⟩
  · exact C9_cursor_progress.1 ['a', 'b', '\x7d'] 1 3 (by decide)
  · exact C9_cursor_progress.2.1 "x".data 0 "" (some "x") 1 (by decide)
  · have hrun : processLoop (mkState "l" ArrayItem.fresh) = .ok
        { template := ['l']
          i := 1
          c := "l"
          j := 1
          calign := [some "left"]
          cwidth := []
          clines := []
          cstart := fun _ => none
          cend := fun _ => none
          ralign := [] } := by
      rw [← processLoopFuel_eq 2 (mkState "l" ArrayItem.fresh) (by decide)]
      rfl
    exact (C9_cursor_progress.2.2.2 (mkState "l" ArrayItem.fresh) _ hrun).2 (by decide)
